import Mathlib

/-!
# Verification of the JobTasksForm field-detection and rule-generation engine

Shallow embedding of the engine found in the repository's main script:
the `ParserTarget` class, the auto-detection pass (`autoDetectParserTargets`),
the confidence scorer (`calculateConfidence`), operator re-mapping
(`updateTargetMapping`), the four rule generators (`generateRegexRule`,
`generateCoordinateRule`, `generateCSSRule`, `generateXPathRule`) together
with `generateRule`'s dispatch, and the text normalizer
(`convertContentToDisplayableText` / `convertContentToHex`).

Text is modelled as `List Char`. The JavaScript source computes confidences
as IEEE doubles, but every score it ever forms is a short sum of exact
multiples of 0.1; confidences are therefore represented in tenths as
naturals (`5` = 0.5, `10` = 1.0), an exact encoding of that decimal
arithmetic (the claimed bounds are restated over `ℚ` where the spec uses
decimals).
JavaScript regular expressions from the fixed pattern catalog are embedded
as hand-written matchers whose greedy/word-boundary behaviour is derived
from the concrete patterns (each pattern's character classes are disjoint,
so greedy matching with backtracking reduces to counting runs).
-/

namespace JobTasks

/-! ## Character classes (JS regex `\d`, `[A-Z]`, `\w`) -/

def isDigitCh (c : Char) : Bool := '0' ≤ c && c ≤ '9'

def isUpperCh (c : Char) : Bool := 'A' ≤ c && c ≤ 'Z'

def isLowerCh (c : Char) : Bool := 'a' ≤ c && c ≤ 'z'

/-- JS `\w` word character: `[A-Za-z0-9_]`. -/
def isWordCh (c : Char) : Bool := isDigitCh c || isUpperCh c || isLowerCh c || c = '_'

def isWordOpt : Option Char → Bool
  | none => false
  | some c => isWordCh c

/-- JS `\b`: a word boundary sits between two positions whose word-ness differs;
out-of-string counts as non-word. -/
def wordBoundary (prev next : Option Char) : Bool := isWordOpt prev != isWordOpt next

/-- Length of the longest run of characters satisfying `p` at the front. -/
def countWhile (p : Char → Bool) (l : List Char) : Nat := (l.takeWhile p).length

/-! ## Embedded catalog patterns

Each matcher takes the character before the current position (for `\b`) and
the remaining text, and returns the length of the match starting here, if any.
-/

/-- `/\bSE[A-Z]\d{3,4}\b/` — strict site codes (`SEA104` style).
`\d{3,4}\b` with digit-run `d`: greedy matching succeeds iff `3 ≤ d ≤ 4` and
the character after the run is not a word character (backtracking inside the
digit run can never restore a failed trailing boundary, since the character
after fewer digits is itself a digit). -/
def matchStrictSiteAt (prev : Option Char) (rest : List Char) : Option Nat :=
  match rest with
  | 'S' :: 'E' :: c :: r =>
    if wordBoundary prev (some 'S') && isUpperCh c then
      let d := countWhile isDigitCh r
      if 3 ≤ d && d ≤ 4 && !(isWordOpt (r.drop d).head?) then some (3 + d) else none
    else none
  | _ => none

/-- `/\b[A-Z]{2,3}\d{1,4}\b/` — generic site codes. Upper-case run `u` and
digit run `d`: the classes are disjoint, so greedy matching succeeds iff
`2 ≤ u ≤ 3`, `1 ≤ d ≤ 4` and the trailing boundary holds. -/
def matchGenericSiteAt (prev : Option Char) (rest : List Char) : Option Nat :=
  let u := countWhile isUpperCh rest
  if wordBoundary prev rest.head? && 2 ≤ u && u ≤ 3 then
    let r := rest.drop u
    let d := countWhile isDigitCh r
    if 1 ≤ d && d ≤ 4 && !(isWordOpt (r.drop d).head?) then some (u + d) else none
  else none

/-- `/\b\d{6,10}\b/` — bare numeric device IDs. -/
def matchNumericIdAt (prev : Option Char) (rest : List Char) : Option Nat :=
  let d := countWhile isDigitCh rest
  if wordBoundary prev rest.head? && 6 ≤ d && d ≤ 10 && !(isWordOpt (rest.drop d).head?) then
    some d
  else none

/-- `/\bV\d{7,10}\b/` — `V`-prefixed device IDs. -/
def matchVDeviceAt (prev : Option Char) (rest : List Char) : Option Nat :=
  match rest with
  | 'V' :: r =>
    if wordBoundary prev (some 'V') then
      let d := countWhile isDigitCh r
      if 7 ≤ d && d ≤ 10 && !(isWordOpt (r.drop d).head?) then some (1 + d) else none
    else none
  | _ => none

/-- `/\bP\d{5,9}\b/` — `P`-prefixed device IDs. -/
def matchPDeviceAt (prev : Option Char) (rest : List Char) : Option Nat :=
  match rest with
  | 'P' :: r =>
    if wordBoundary prev (some 'P') then
      let d := countWhile isDigitCh r
      if 5 ≤ d && d ≤ 9 && !(isWordOpt (r.drop d).head?) then some (1 + d) else none
    else none
  | _ => none

/-- Characters ending a keyword phrase: the negated class `[^.!?\n]`.
Note `\r` is *not* excluded by the source pattern. -/
def notTerm (c : Char) : Bool := !(c = '.' || c = '!' || c = '?' || c = '\n')

/-- First matching literal alternative (JS alternation tries left to right;
all catalog alternatives start with distinct letters, so at most one can
match at a given position). After the literal a `\b` must hold, then the
greedy tail `[^.!?\n]*` runs to the next sentence terminator or line feed. -/
def matchAltsTail (alts : List (List Char)) (rest : List Char) : Option Nat :=
  match alts with
  | [] => none
  | lit :: more =>
    if lit.isPrefixOf rest && !(isWordOpt ((rest.drop lit.length).head?)) then
      some (lit.length + countWhile notTerm (rest.drop lit.length))
    else matchAltsTail more rest

/-- `/\b(?:...alternatives...)\b[^.!?\n]*/` keyword-phrase patterns. -/
def matchKeywordTailAt (alts : List (List Char)) (prev : Option Char) (rest : List Char) :
    Option Nat :=
  if wordBoundary prev rest.head? then matchAltsTail alts rest else none

/-! ## `String.prototype.matchAll` over a global pattern -/

/-- One pass of `content.matchAll(pattern)`: scan left to right, report each
leftmost match as `(index, matched text)` and resume after it
(non-overlapping, as for a `/g` regex). Fuel is the remaining text length
plus one; every step either consumes a character or a whole (non-empty)
match, so the fuel never runs out on the initial call. -/
def matchAllGo (matchAt : Option Char → List Char → Option Nat) :
    Nat → Nat → Option Char → List Char → List (Nat × List Char)
  | 0, _, _, _ => []
  | Nat.succ _, _, _, [] => []
  | Nat.succ fuel, i, prev, c :: rs =>
    match matchAt prev (c :: rs) with
    | some (Nat.succ m) =>
      ((i, (c :: rs).take (m + 1))) ::
        matchAllGo matchAt fuel (i + m + 1) ((c :: rs).take (m + 1)).getLast?
          ((c :: rs).drop (m + 1))
    | _ => matchAllGo matchAt fuel (i + 1) (some c) rs

def matchAll (matchAt : Option Char → List Char → Option Nat) (content : List Char) :
    List (Nat × List Char) :=
  matchAllGo matchAt (content.length + 1) 0 none content

/-! ## The pattern catalog (`this.patternRules`) -/

inductive FieldType
  | building_code
  | device_id
  | job_name
  | job_trouble_description
  deriving DecidableEq, Repr

def jobNameAlts1 : List (List Char) := ["Service Call".toList, "Alarm".toList]

def jobNameAlts2 : List (List Char) :=
  ["Device Offline".toList, "Line Error".toList, "Alarm Active".toList]

def troubleAlts1 : List (List Char) :=
  ["Device Offline".toList, "Line Error".toList, "Alarm Active".toList, "Maintenance".toList]

def troubleAlts2 : List (List Char) :=
  ["Input Output".toList, "Power Supply".toList, "Reader".toList, "Contact".toList]

/-- The catalog, in the source's object-insertion order (which is the scan
order of `Object.entries`). -/
def patternRules : List (FieldType × List (Option Char → List Char → Option Nat)) :=
  [ (.building_code, [matchStrictSiteAt, matchGenericSiteAt]),
    (.device_id, [matchNumericIdAt, matchVDeviceAt, matchPDeviceAt]),
    (.job_name, [matchKeywordTailAt jobNameAlts1, matchKeywordTailAt jobNameAlts2]),
    (.job_trouble_description,
      [matchKeywordTailAt troubleAlts1, matchKeywordTailAt troubleAlts2]) ]

/-- All raw matches in catalog iteration order: field-type order, then
pattern order, then left-to-right. -/
def catalogRawMatches (content : List Char) : List (FieldType × Nat × List Char) :=
  patternRules.flatMap fun p =>
    p.2.flatMap fun pat => (matchAll pat content).map fun m => (p.1, m.1, m.2)

/-! ## `String` helpers used throughout the source -/

/-- JS `String.prototype.trim` whitespace (the ASCII members plus NBSP;
the catalog's matched texts only ever carry ASCII whitespace). -/
def isJsWs (c : Char) : Bool :=
  c = ' ' || c = '\t' || c = '\n' || c = '\r' || c = '\x0b' || c = '\x0c' || c = '\xa0'

/-- `text.trim()`. -/
def jsTrim (l : List Char) : List Char := (l.dropWhile isJsWs).rdropWhile isJsWs

/-- `String.prototype.toLowerCase` restricted to ASCII (the only characters
the scorer's keyword searches can be sensitive to). -/
def toLowerJS (c : Char) : Char := c.toLower

/-- Index of the first occurrence of `needle` in `hay`
(JS `String.prototype.indexOf`, and the match position of a
metacharacter-escaped literal regex). -/
def firstIndexOf (needle : List Char) : List Char → Option Nat
  | [] => if needle.isPrefixOf ([] : List Char) then some 0 else none
  | c :: rest =>
    if needle.isPrefixOf (c :: rest) then some 0
    else (firstIndexOf needle rest).map (· + 1)

/-- `hay.includes(needle)`. -/
def containsSeq (needle hay : List Char) : Bool := (firstIndexOf needle hay).isSome

/-- `text.match(re)` produces a match somewhere in `text` (non-global
existence test, as used by `calculateConfidence`). -/
def existsMatchIn (matchAt : Option Char → List Char → Option Nat) (text : List Char) : Bool :=
  !(matchAll matchAt text).isEmpty

/-! ## `ParserTarget` and its methods -/

structure TargetContext where
  before : List Char
  after : List Char
  line : Nat
  deriving DecidableEq, Repr

/-- The `fieldType` slot of a target: `null` at construction, the string
`'unmapped'`, or one of the catalog field types. -/
inductive FieldAssignment
  | nullField
  | unmapped
  | assigned (ft : FieldType)
  deriving DecidableEq, Repr

/-- The `ParserTarget` class (its DOM-element slots are presentation-only and
omitted). -/
structure ParserTarget where
  text : List Char
  startPos : Nat
  endPos : Nat
  confidence : Nat
  fieldType : FieldAssignment := .nullField
  context : Option TargetContext := none
  deriving DecidableEq, Repr

/-- `NOT(a.end <= b.start OR b.end <= a.start)` on raw spans (the detection
loop calls `overlaps` against a plain `{text, startPos, endPos}` probe
object, which only exposes its span). -/
def spanOverlaps (aS aE bS bE : Nat) : Bool := !(decide (aE ≤ bS) || decide (bE ≤ aS))

def ParserTarget.overlaps (a b : ParserTarget) : Bool :=
  spanOverlaps a.startPos a.endPos b.startPos b.endPos

/-- `contains(position)`: `position >= this.startPos && position <= this.endPos`. -/
def ParserTarget.containsPos (t : ParserTarget) (position : Nat) : Bool :=
  decide (position ≥ t.startPos) && decide (position ≤ t.endPos)

def ParserTarget.getBounds (t : ParserTarget) : Nat × Nat × Nat :=
  (t.startPos, t.endPos, t.endPos - t.startPos)

/-! ## Confidence scorer (`calculateConfidence`) -/

/-- `text.match(/^\d+$/)`: one or more digits spanning the whole string. -/
def isAllDigits (text : List Char) : Bool := !text.isEmpty && text.all isDigitCh

/-- `text.match(/^[VP]\d+$/)`. -/
def isVPNumber (text : List Char) : Bool :=
  match text with
  | c :: rest => (c = 'V' || c = 'P') && !rest.isEmpty && rest.all isDigitCh
  | [] => false

/-- The 100-character case-folded context window each side of the match. -/
def contextWindow (content : List Char) (position : Nat) (textLen : Nat) : List Char :=
  let beforeText := (content.take position).drop (position - 100)
  let afterText := (content.drop (position + textLen)).take 100
  (beforeText ++ afterText).map toLowerJS

/-- `Math.min`, as an explicit conditional. All scores in the source are
exact multiples of 0.1, so confidences are represented throughout in tenths
(`5` = 0.5, `10` = 1.0): this keeps every score computable by kernel
reduction while remaining an exact encoding of the source's decimal
arithmetic. -/
def jsMin (a b : Nat) : Nat := if a ≤ b then a else b

/-- The `building_code` branch of the scorer: `+0.3` when the strict
site-code sub-pattern matches somewhere in the text, `+0.1` for length 5–8. -/
def scoreBuildingCode (text : List Char) (confidence : Nat) : Nat :=
  let c := if existsMatchIn matchStrictSiteAt text then confidence + 3 else confidence
  if 5 ≤ text.length && text.length ≤ 8 then c + 1 else c

/-- The `device_id` branch: `+0.2` all digits, `+0.3` for `^[VP]\d+$`,
`+0.2` for length 6–10. -/
def scoreDeviceId (text : List Char) (confidence : Nat) : Nat :=
  let c := if isAllDigits text then confidence + 2 else confidence
  let c := if isVPNumber text then c + 3 else c
  if 6 ≤ text.length && text.length ≤ 10 then c + 2 else c

/-- The keyword-context bonuses over the case-folded 100-character window. -/
def scoreContext (fieldType : FieldType) (contextText : List Char) (confidence : Nat) : Nat :=
  let c :=
    if fieldType = .job_name && containsSeq "service call".toList contextText then
      confidence + 2
    else confidence
  let c :=
    if fieldType = .job_trouble_description &&
        (containsSeq "device offline".toList contextText ||
          containsSeq "alarm active".toList contextText) then
      c + 2
    else c
  if fieldType = .building_code &&
      (containsSeq "site".toList contextText || containsSeq "building".toList contextText) then
    c + 1
  else c

/-- `calculateConfidence(fieldType, text, position, content)`: base 0.5, the
additive bonuses of the source in order, clamped by `Math.min(1.0, ·)`.
The position bonus fires when `position / content.length > 0.2`, i.e.
`5 * position > content.length` (this also reproduces the JS behaviour on
the degenerate `content.length = 0` cases, where `0/0` is NaN — no bonus —
and `p/0` for `p > 0` is Infinity — bonus). -/
def calculateConfidence (fieldType : FieldType) (text : List Char) (position : Nat)
    (content : List Char) : Nat :=
  let confidence : Nat := 5
  let confidence :=
    if fieldType = .building_code then scoreBuildingCode text confidence else confidence
  let confidence := if fieldType = .device_id then scoreDeviceId text confidence else confidence
  let confidence := scoreContext fieldType (contextWindow content position text.length) confidence
  let confidence := if 5 * position > content.length then confidence + 1 else confidence
  jsMin 10 confidence

/-- `getTargetContext(content, startPos, endPos)`. -/
def getTargetContext (content : List Char) (startPos endPos : Nat) : TargetContext :=
  { before := jsTrim ((content.take startPos).drop (startPos - 50)),
    after := jsTrim ((content.drop endPos).take 50),
    line := ((content.take startPos).filter (· = '\n')).length + 1 }

/-! ## The detection pass (`autoDetectParserTargets`) -/

/-- The `DetectedTarget` built for an accepted candidate. -/
def mkDetected (content : List Char) (fieldType : FieldType) (startPos : Nat)
    (targetText : List Char) : ParserTarget :=
  { text := targetText,
    startPos := startPos,
    endPos := startPos + targetText.length,
    confidence := calculateConfidence fieldType targetText startPos content,
    fieldType := .assigned fieldType,
    context := some (getTargetContext content startPos (startPos + targetText.length)) }

/-- The body of the detection loop for one raw match `(fieldType, index,
matched text)`: trim the matched text (`targetText = match[0].trim()`,
`startPos = match.index`, `endPos = startPos + targetText.length`), reject
on overlap with any already-accepted target (before any scoring), otherwise
score and accept when `confidence >= 0.5`. -/
def detectStep (content : List Char) (acc : List ParserTarget)
    (m : FieldType × Nat × List Char) : List ParserTarget :=
  if acc.any (fun t => spanOverlaps t.startPos t.endPos m.2.1 (m.2.1 + (jsTrim m.2.2).length)) then
    acc
  else if 5 ≤ calculateConfidence m.1 (jsTrim m.2.2) m.2.1 content then
    acc ++ [mkDetected content m.1 m.2.1 (jsTrim m.2.2)]
  else acc

/-- `autoDetectParserTargets()`: rebuild the registry from scratch by the
single greedy pass over the catalog, then sort by `startPos` ascending. -/
def autoDetectParserTargets (content : List Char) : List ParserTarget :=
  ((catalogRawMatches content).foldl (detectStep content) []).insertionSort
    (fun a b => a.startPos ≤ b.startPos)

/-! ## Operator re-mapping (`updateTargetMapping`) -/

/-- The dropdown value handed to `updateTargetMapping`: `'unmapped'` or a
field-type name. -/
inductive NewFieldType
  | unmapped
  | toField (ft : FieldType)
  deriving DecidableEq, Repr

def NewFieldType.asAssignment : NewFieldType → FieldAssignment
  | .unmapped => .unmapped
  | .toField ft => .assigned ft

/-- `updateTargetMapping(index, newFieldType)`: no-op when the index is out
of range; otherwise store the new field type and nudge confidence by
`min(1.0, confidence + 0.2)` unless the choice is `'unmapped'`. -/
def updateTargetMapping (targets : List ParserTarget) (index : Nat)
    (newFieldType : NewFieldType) : List ParserTarget :=
  match targets[index]? with
  | none => targets
  | some target =>
    targets.set index
      { target with
        fieldType := newFieldType.asAssignment,
        confidence :=
          if newFieldType ≠ .unmapped then jsMin 10 (target.confidence + 2)
          else target.confidence }

/-! ## Rule generation

Each generator emits a textual procedure; what the claims quantify over is
the extraction logic that the emitted procedure describes, embedded here as
the corresponding function of `(content, selection)`.
-/

/-- The metacharacters escaped by `generateRegexRule`:
`text.replace(/[.*+?^$\x7b\x7d()|[\]\\]/g, '\\$&')`. -/
def regexMeta (c : Char) : Bool :=
  c = '.' || c = '*' || c = '+' || c = '?' || c = '^' || c = '$' || c = '\x7b' ||
    c = '\x7d' || c = '(' || c = ')' || c = '|' || c = '[' || c = ']' || c = '\\'

def escapeRegex (l : List Char) : List Char :=
  l.flatMap fun c => if regexMeta c then ['\\', c] else [c]

/-- The procedure emitted by `generateRegexRule`:
`content.match(/<escaped>/); return match ? match[1] || match[0] : ''`.
Since every metacharacter of the selection is escaped, the regex denotes the
literal selection, so the match is the first literal occurrence; the emitted
pattern has no capture group, so `match[1]` is undefined and `match[0]` is
returned. -/
def regexRuleExtract (content text : List Char) : List Char :=
  match firstIndexOf text content with
  | some i => (content.drop i).take text.length
  | none => []

/-- JS `content.substring(a, b)`: clamp both arguments to `[0, length]` and
swap them when reversed. -/
def jsSubstring (content : List Char) (a b : Nat) : List Char :=
  (content.take (max (min a content.length) (min b content.length))).drop
    (min (min a content.length) (min b content.length))

structure SelectionCoords where
  start : Nat
  stop : Nat
  deriving DecidableEq, Repr

/-- The procedure emitted by `generateCoordinateRule`:
`content.substring(coords.start, coords.end).trim()`. -/
def coordinateRuleExtract (content : List Char) (coords : SelectionCoords) : List Char :=
  jsTrim (jsSubstring content coords.start coords.stop)

def isLineBreak (c : Char) : Bool := c = '\r' || c = '\n'

/-- `content.split(/[\r\n]/)`. -/
def splitLines : List Char → List (List Char)
  | [] => [[]]
  | c :: rest =>
    match splitLines rest with
    | [] => [[]]
    | l :: ls => if isLineBreak c then [] :: l :: ls else (c :: l) :: ls

/-- `hay.split(sep)` for a string separator (fuelled: the separator is
non-empty on every call site, and each split consumes at least one
character). -/
def jsSplitGo (sep : List Char) : Nat → List Char → List (List Char)
  | 0, hay => [hay]
  | Nat.succ fuel, hay =>
    match firstIndexOf sep hay with
    | none => [hay]
    | some i => hay.take i :: jsSplitGo sep fuel (hay.drop (i + sep.length))

def jsSplit (sep hay : List Char) : List (List Char) :=
  if sep.isEmpty then hay.map ([·]) else jsSplitGo sep (hay.length + 1) hay

/-- The procedure emitted by `generateCSSRule`:
`if (content.includes(text)) { const parts = content.split(text);`
`  return parts[1] ? parts[1].split(/[\r\n]/)[0].trim() : text; }`
`return '';`. -/
def cssRuleExtract (content text : List Char) : List Char :=
  if containsSeq text content then
    let p1 := (jsSplit text content).getD 1 []
    if !p1.isEmpty then jsTrim (p1.takeWhile fun c => !isLineBreak c) else text
  else []

/-- `hay.replace(needle, replacement)` — first occurrence only. -/
def replaceFirst (needle replacement hay : List Char) : List Char :=
  match firstIndexOf needle hay with
  | some i => hay.take i ++ replacement ++ hay.drop (i + needle.length)
  | none => hay

/-- The procedure emitted by `generateXPathRule`:
`const lines = content.split(/[\r\n]/);`
`const line = lines.find(l => l.includes(text));`
`return line ? line.replace(text, '').trim() : '';`. -/
def xpathRuleExtract (content text : List Char) : List Char :=
  match (splitLines content).find? (fun l => containsSeq text l) with
  | some line => jsTrim (replaceFirst text [] line)
  | none => []

inductive RuleStrategy
  | regex
  | coordinates
  | css
  | xpath
  deriving DecidableEq, Repr

/-- `this.ruleGenerators[ruleType]` — the four registered generators; any
other key yields `undefined`. -/
def lookupGenerator (ruleType : List Char) : Option RuleStrategy :=
  if ruleType = "regex".toList then some .regex
  else if ruleType = "coordinates".toList then some .coordinates
  else if ruleType = "css".toList then some .css
  else if ruleType = "xpath".toList then some .xpath
  else none

/-- Observable outcome of one `generateRule()` call: the two validation
alerts, a rule added to the output pane, or — when the strategy name is
unknown — nothing at all. -/
inductive GenerateOutcome
  | selectTextAlert
  | ruleNameAlert
  | ruleAdded (strategy : RuleStrategy)
  | noOp
  deriving DecidableEq, Repr

/-- `generateRule()`: empty selection and blank name are rejected with
alerts; then the generator looked up under `ruleType` runs, and
`if (generator)` silently skips generation when the lookup failed. -/
def generateRule (ruleType ruleName selectedText : List Char) : GenerateOutcome :=
  if selectedText.isEmpty then .selectTextAlert
  else if (jsTrim ruleName).isEmpty then .ruleNameAlert
  else
    match lookupGenerator ruleType with
    | some s => .ruleAdded s
    | none => .noOp

/-! ## Text normalizer (`convertContentToDisplayableText`) -/

/-- The control characters removed from every decoded string:
`replace(/\x00/g, '')` then `replace(/[\x01-\x08\x0B\x0C\x0E-\x1F\x7F]/g, '')`. -/
def isStrippedControl (c : Char) : Bool :=
  let n := c.toNat
  n = 0x00 || (0x01 ≤ n && n ≤ 0x08) || n = 0x0B || n = 0x0C ||
    (0x0E ≤ n && n ≤ 0x1F) || n = 0x7F

def stripControls (l : List Char) : List Char := l.filter fun c => !isStrippedControl c

/-- The character count used by the encoding-selection ratio test:
`decoded.replace(/[\x00-\x1F\x7F]/g, '').length` — everything except the C0
controls (newline and tab included) and DEL counts, non-ASCII included. -/
def ratioCharCount (l : List Char) : Nat :=
  (l.filter fun c => !(c.toNat ≤ 0x1F || c.toNat = 0x7F)).length

/-- `printableChars / decoded.length > 0.3`, as an exact comparison. -/
def displayableRatioOk (l : List Char) : Bool := 3 * l.length < 10 * ratioCharCount l

inductive EncodingName
  | utf8
  | iso88591
  | windows1252
  | utf16le
  | utf16be
  deriving DecidableEq, Repr

/-- The fixed encoding order tried for byte buffers. -/
def encodingOrder : List EncodingName := [.utf8, .iso88591, .windows1252, .utf16le, .utf16be]

def hexDigitCh (n : Nat) : Char :=
  if n < 10 then Char.ofNat ('0'.toNat + n) else Char.ofNat ('a'.toNat + n - 10)

/-- `byte.toString(16).padStart(2, '0')`. -/
def hexByte (b : Nat) : List Char := [hexDigitCh (b / 16 % 16), hexDigitCh (b % 16)]

/-- `offset.toString(16).padStart(8, '0')` for row offsets (below `16^8`). -/
def hexOffset8 (n : Nat) : List Char :=
  ((List.range 8).reverse).map fun k => hexDigitCh (n / 16 ^ k % 16)

/-- Split a byte list into the dump's 16-byte rows. -/
def chunks16 : List Nat → List (List Nat)
  | [] => []
  | b :: rest => ((b :: rest).take 16) :: chunks16 ((b :: rest).drop 16)
  termination_by l => l.length
  decreasing_by simp; omega

def hexCellsFor (chunk : List Nat) : List (List Char) :=
  (List.range 16).map fun i =>
    match chunk[i]? with
    | some b => hexByte b
    | none => [' ', ' ']

def charGutterFor (chunk : List Nat) : List Char :=
  (List.range 16).map fun i =>
    match chunk[i]? with
    | some b => if 32 ≤ b && b ≤ 126 then Char.ofNat b else '.'
    | none => ' '

def hexLineFor (offset : Nat) (chunk : List Nat) : List Char :=
  hexOffset8 offset ++ (": ".toList ++ List.intercalate [' '] (hexCellsFor chunk)) ++
    ("  |".toList ++ charGutterFor chunk ++ ['|'])

/-- `convertContentToHex(buffer, filename, true)` — the textual hex dump
(header line, then one line per 16 bytes). -/
def convertContentToHexText (filename : List Char) (bytes : List Nat) : List Char :=
  "Hexadecimal dump of ".toList ++ filename ++ " (".toList ++
    Nat.toDigits 10 bytes.length ++ " bytes):\n\n".toList ++
    List.intercalate ['\n'] ((chunks16 bytes).mapIdx fun r chunk => hexLineFor (16 * r) chunk)

/-- Raw input to the normalizer: a text string or an `ArrayBuffer` of bytes. -/
inductive RawContent
  | str (s : List Char)
  | buffer (bytes : List Nat)

/-- `convertContentToDisplayableText(content, filename)`. `TextDecoder` is
host functionality external to the engine, so the decoding map for the five
tried encodings is taken as a parameter; the selection logic, ratio test,
control stripping and hex-dump fallback are embedded from the source. -/
def convertContentToDisplayableText (decode : EncodingName → List Nat → List Char)
    (filename : List Char) : RawContent → List Char
  | .str s => stripControls s
  | .buffer bytes =>
    match encodingOrder.find? (fun e => displayableRatioOk (decode e bytes)) with
    | some e => stripControls (decode e bytes)
    | none => convertContentToHexText filename bytes

/-- Modelled from the spec: the spec's printable test for the encoding
selection — "ASCII 0x20–0x7E plus newline/tab", required for "≥30%" of the
decoded output. Stated for comparison with the source's
`displayableRatioOk`. -/
def specPrintable (c : Char) : Bool :=
  (0x20 ≤ c.toNat && c.toNat ≤ 0x7E) || c.toNat = 0x0A || c.toNat = 0x09

def specDisplayableRatioOk (l : List Char) : Bool :=
  3 * l.length ≤ 10 * (l.filter specPrintable).length

/-- The input text of the spec's example scenario 1. -/
def scenario1Text : List Char :=
  "Service Call B-802641 - SEA124 - Alarm Active - P3 - Reader - P296563983-13".toList

/-! ## Helper lemmas -/

theorem jsMin_le_left (a b : Nat) : jsMin a b ≤ a := by
  unfold jsMin
  split <;> omega

theorem le_jsMin {a b c : Nat} (h1 : c ≤ a) (h2 : c ≤ b) : c ≤ jsMin a b := by
  unfold jsMin
  split
  · exact h1
  · exact h2

theorem firstIndexOf_isPrefixOf (needle : List Char) :
    ∀ (hay : List Char) (i : Nat), firstIndexOf needle hay = some i →
      needle.isPrefixOf (hay.drop i) = true := by
  intro hay
  induction hay with
  | nil =>
    intro i h
    unfold firstIndexOf at h
    split at h
    · next hp => cases h; simpa using hp
    · cases h
  | cons c rest ih =>
    intro i h
    unfold firstIndexOf at h
    split at h
    · next hp => cases h; simpa using hp
    · next hp =>
      rcases Option.map_eq_some'.mp h with ⟨j, hj, rfl⟩
      simpa using ih j hj

theorem take_of_firstIndexOf {needle hay : List Char} {i : Nat}
    (h : firstIndexOf needle hay = some i) :
    (hay.drop i).take needle.length = needle := by
  have hp := firstIndexOf_isPrefixOf needle hay i h
  rw [List.isPrefixOf_iff_prefix] at hp
  obtain ⟨t, ht⟩ := hp
  rw [← ht]
  exact List.take_left _ _

theorem firstIndexOf_isSome_of_occurs {needle : List Char} :
    ∀ {hay : List Char}, needle <:+: hay → (firstIndexOf needle hay).isSome = true := by
  intro hay
  induction hay with
  | nil =>
    intro h
    have : needle = [] := List.eq_nil_of_infix_nil h
    subst this
    rfl
  | cons c rest ih =>
    intro h
    unfold firstIndexOf
    split
    · rfl
    · next hp =>
      have hrest : needle <:+: rest := by
        rcases h with ⟨s, t, hst⟩
        cases s with
        | nil =>
          exfalso
          apply hp
          rw [List.isPrefixOf_iff_prefix]
          exact ⟨t, by simpa using hst⟩
        | cons x xs =>
          refine ⟨xs, t, ?_⟩
          have := List.tail_eq_of_cons_eq hst
          simpa using this
      have := ih hrest
      rcases Option.isSome_iff_exists.mp this with ⟨j, hj⟩
      simp [hj]

theorem overlaps_symm_false {a b : ParserTarget} (h : a.overlaps b = false) :
    b.overlaps a = false := by
  simp [ParserTarget.overlaps, spanOverlaps] at *
  omega

theorem le_scoreBuildingCode (text : List Char) (c : Nat) : c ≤ scoreBuildingCode text c := by
  unfold scoreBuildingCode
  dsimp only
  split_ifs <;> omega

theorem le_scoreDeviceId (text : List Char) (c : Nat) : c ≤ scoreDeviceId text c := by
  unfold scoreDeviceId
  dsimp only
  split_ifs <;> omega

theorem le_scoreContext (fieldType : FieldType) (contextText : List Char) (c : Nat) :
    c ≤ scoreContext fieldType contextText c := by
  unfold scoreContext
  dsimp only
  split_ifs <;> omega

theorem le_ite_self_add {c : Prop} [Decidable c] {x b : Nat} :
    x ≤ if c then x + b else x := by
  split <;> omega

theorem le_ite_self_apply {c : Prop} [Decidable c] {x y : Nat} (h : x ≤ y) :
    x ≤ if c then y else x := by
  split
  · exact h
  · exact le_rfl

/-- Bounds of the scorer (in tenths): the clamp gives the upper bound, and
every branch only ever adds a non-negative bonus to the base `0.5`. -/
theorem calculateConfidence_bounds (fieldType : FieldType) (text : List Char) (position : Nat)
    (content : List Char) :
    5 ≤ calculateConfidence fieldType text position content ∧
      calculateConfidence fieldType text position content ≤ 10 := by
  unfold calculateConfidence
  constructor
  · apply le_jsMin (by omega)
    refine le_trans (le_ite_self_apply (le_scoreBuildingCode text 5))
      (le_trans (le_ite_self_apply (le_scoreDeviceId text _))
        (le_trans (le_scoreContext fieldType _ _) le_ite_self_add))
  · exact jsMin_le_left _ _

/-- Every target the detection loop accumulates satisfies `P` provided the
initial accumulator does and `P` holds of every freshly built target. -/
theorem detect_foldl_mem (content : List Char) (P : ParserTarget → Prop)
    (hmk : ∀ ft startPos ttext, P (mkDetected content ft startPos ttext)) :
    ∀ (raws : List (FieldType × Nat × List Char)) (acc : List ParserTarget),
      (∀ t ∈ acc, P t) → ∀ t ∈ raws.foldl (detectStep content) acc, P t := by
  intro raws
  induction raws with
  | nil => intro acc hacc t ht; exact hacc t ht
  | cons m ms ih =>
    intro acc hacc t ht
    refine ih (detectStep content acc m) ?_ t ht
    intro u hu
    simp only [detectStep] at hu
    split at hu
    · exact hacc u hu
    · split at hu
      · rcases List.mem_append.mp hu with h | h
        · exact hacc u h
        · rcases List.mem_singleton.mp h with rfl
          exact hmk _ _ _
      · exact hacc u hu

/-- Provenance of accumulated targets: each comes from the initial
accumulator or from some raw match, with the field type and trimmed text of
that match. -/
theorem detect_foldl_provenance (content : List Char) :
    ∀ (raws : List (FieldType × Nat × List Char)) (acc : List ParserTarget),
      ∀ t ∈ raws.foldl (detectStep content) acc,
        t ∈ acc ∨ ∃ m ∈ raws, t.fieldType = .assigned m.1 ∧ t.text = jsTrim m.2.2 := by
  intro raws
  induction raws with
  | nil => intro acc t ht; exact Or.inl ht
  | cons m ms ih =>
    intro acc t ht
    rcases ih (detectStep content acc m) t ht with h | ⟨m', hm', h1, h2⟩
    · unfold detectStep at h
      split at h
      · exact Or.inl h
      · split at h
        · rcases List.mem_append.mp h with h' | h'
          · exact Or.inl h'
          · rcases List.mem_singleton.mp h' with rfl
            exact Or.inr ⟨m, List.mem_cons_self _ _, rfl, rfl⟩
        · exact Or.inl h
    · exact Or.inr ⟨m', List.mem_cons_of_mem _ hm', h1, h2⟩

/-- The accumulator stays pairwise non-overlapping: a candidate is only
appended after the overlap check against every accepted target fails. -/
theorem detect_foldl_pairwise (content : List Char) :
    ∀ (raws : List (FieldType × Nat × List Char)) (acc : List ParserTarget),
      acc.Pairwise (fun a b => a.overlaps b = false) →
      (raws.foldl (detectStep content) acc).Pairwise (fun a b => a.overlaps b = false) := by
  intro raws
  induction raws with
  | nil => intro acc h; exact h
  | cons m ms ih =>
    intro acc h
    refine ih (detectStep content acc m) ?_
    simp only [detectStep]
    split
    · exact h
    · next hAny =>
      split
      · rw [List.pairwise_append]
        refine ⟨h, List.pairwise_singleton _ _, ?_⟩
        intro a ha b hb
        rcases List.mem_singleton.mp hb with rfl
        have hfa : ∀ t ∈ acc,
            spanOverlaps t.startPos t.endPos m.2.1 (m.2.1 + (jsTrim m.2.2).length) = false := by
          intro t htm
          have := (List.any_eq_false).mp (Bool.not_eq_true _ ▸ hAny) t htm
          simpa using this
        have := hfa a ha
        simpa [ParserTarget.overlaps, mkDetected] using this
      · exact h

theorem take_countWhile_eq_takeWhile (p : Char → Bool) (l : List Char) :
    l.take (countWhile p l) = l.takeWhile p := by
  induction l with
  | nil => rfl
  | cons c t ih =>
    by_cases hc : p c
    · simp only [countWhile, List.takeWhile_cons, hc, if_true, List.length_cons,
        List.take_succ_cons]
      rw [show (t.takeWhile p).length = countWhile p t from rfl, ih]
    · simp [countWhile, List.takeWhile_cons, hc]

/-- Every reported match of `matchAll` is the text some invocation of the
position matcher accepted: a take-prefix of the rest of the content at the
match site. -/
theorem matchAllGo_sound (f : Option Char → List Char → Option Nat) :
    ∀ (fuel i : Nat) (prev : Option Char) (rest : List Char) (p : Nat × List Char),
      p ∈ matchAllGo f fuel i prev rest →
      ∃ prev' rest' n, f prev' rest' = some n ∧ p.2 = rest'.take n := by
  intro fuel
  induction fuel with
  | zero =>
    intro i prev rest p h
    simp [matchAllGo] at h
  | succ fuel ih =>
    intro i prev rest p h
    cases rest with
    | nil => simp [matchAllGo] at h
    | cons c rs =>
      unfold matchAllGo at h
      split at h
      · next m heq =>
        rcases List.mem_cons.mp h with heq2 | htail
        · exact ⟨prev, c :: rs, m + 1, heq, by rw [heq2]⟩
        · exact ih _ _ _ _ htail
      · exact ih _ _ _ _ h

theorem matchAltsTail_sound :
    ∀ (alts : List (List Char)) (rest : List Char) (n : Nat),
      matchAltsTail alts rest = some n →
      ∃ lit ∈ alts, lit.isPrefixOf rest = true ∧
        n = lit.length + countWhile notTerm (rest.drop lit.length) := by
  intro alts
  induction alts with
  | nil => intro rest n h; simp [matchAltsTail] at h
  | cons lit more ih =>
    intro rest n h
    unfold matchAltsTail at h
    split at h
    · next hcond =>
      cases h
      exact ⟨lit, List.mem_cons_self _ _, ((Bool.and_eq_true _ _).mp hcond).1, rfl⟩
    · rcases ih rest n h with ⟨l, hl, h1, h2⟩
      exact ⟨l, List.mem_cons_of_mem _ hl, h1, h2⟩

theorem matchKeywordTailAt_sound {alts : List (List Char)} {prev : Option Char}
    {rest : List Char} {n : Nat} (h : matchKeywordTailAt alts prev rest = some n) :
    ∃ lit ∈ alts, lit.isPrefixOf rest = true ∧
      n = lit.length + countWhile notTerm (rest.drop lit.length) := by
  unfold matchKeywordTailAt at h
  split at h
  · exact matchAltsTail_sound alts rest n h
  · cases h

/-- Every match of a keyword-phrase pattern is one of its literal
alternatives followed by a tail free of sentence terminators. -/
theorem keyword_match_text_shape {alts : List (List Char)} {content : List Char}
    {i : Nat} {m : List Char}
    (h : (i, m) ∈ matchAll (matchKeywordTailAt alts) content) :
    ∃ lit ∈ alts, ∃ tail : List Char, m = lit ++ tail ∧ ∀ ch ∈ tail, notTerm ch = true := by
  rcases matchAllGo_sound (matchKeywordTailAt alts) _ _ _ _ _ h with ⟨prev', rest', n, hf, hm⟩
  rcases matchKeywordTailAt_sound hf with ⟨lit, hlit, hpre, hn⟩
  refine ⟨lit, hlit, (rest'.drop lit.length).takeWhile notTerm, ?_, ?_⟩
  · rw [show m = rest'.take n from hm, hn, List.take_add]
    have hpre' := hpre
    rw [List.isPrefixOf_iff_prefix] at hpre'
    obtain ⟨t, ht⟩ := hpre'
    rw [← ht, List.take_left, List.drop_left,
      take_countWhile_eq_takeWhile notTerm t]
  · intro ch hch
    exact List.mem_takeWhile_imp hch

/-- `rdropWhile` over an append: the left part survives whenever the right
part does not vanish entirely. -/
theorem rdropWhile_append (p : Char → Bool) (l₁ l₂ : List Char) :
    List.rdropWhile p (l₁ ++ l₂) =
      if (List.rdropWhile p l₂).isEmpty then List.rdropWhile p l₁
      else l₁ ++ List.rdropWhile p l₂ := by
  unfold List.rdropWhile
  rw [List.reverse_append, List.dropWhile_append]
  have hiff : (List.dropWhile p l₂.reverse).isEmpty =
      (List.dropWhile p l₂.reverse).reverse.isEmpty := by
    cases List.dropWhile p l₂.reverse <;> simp
  split
  · next hcase =>
    rw [if_pos (by rw [← hiff]; exact hcase)]
  · next hcase =>
    rw [if_neg (by rw [← hiff]; exact hcase), List.reverse_append, List.reverse_reverse]

/-- Trimming a keyword phrase keeps the keyword: the keyword neither starts
nor ends with whitespace, so only part of the tail can be trimmed away. -/
theorem jsTrim_keyword_shape {lit tail : List Char}
    (h1 : lit.dropWhile isJsWs = lit) (h2 : List.rdropWhile isJsWs lit = lit)
    (hne : lit ≠ []) :
    ∃ tail' : List Char, tail'.Sublist tail ∧ jsTrim (lit ++ tail) = lit ++ tail' := by
  unfold jsTrim
  rw [List.dropWhile_append, h1, if_neg (by simpa [List.isEmpty_iff] using hne),
    rdropWhile_append]
  split
  · exact ⟨[], List.nil_sublist _, by rw [h2, List.append_nil]⟩
  · exact ⟨List.rdropWhile isJsWs tail, ( List.rdropWhile_prefix _ _).sublist, rfl⟩

/-- The raw job-name matches of the catalog come from exactly its two
`job_name` patterns. -/
theorem catalog_job_name_cases {content : List Char} {i : Nat} {m : List Char}
    (h : (FieldType.job_name, i, m) ∈ catalogRawMatches content) :
    (i, m) ∈ matchAll (matchKeywordTailAt jobNameAlts1) content ∨
    (i, m) ∈ matchAll (matchKeywordTailAt jobNameAlts2) content := by
  simp only [catalogRawMatches, patternRules, List.flatMap_cons, List.flatMap_nil,
    List.append_nil, List.mem_append, List.mem_map, Prod.mk.injEq, reduceCtorEq,
    eq_self_iff_true, true_and, false_and, and_false, exists_false, or_false,
    false_or] at h
  rcases h with ⟨x, hx, hi, hm⟩ | ⟨x, hx, hi, hm⟩
  · left
    rcases hi with rfl
    rcases hm with rfl
    simpa using hx
  · right
    rcases hi with rfl
    rcases hm with rfl
    simpa using hx

theorem job_name_shape_aux {lit tail kw : List Char} (hpre2 : kw <+: lit)
    (h1 : lit.dropWhile isJsWs = lit) (h2 : List.rdropWhile isJsWs lit = lit) (hne : lit ≠ [])
    (hterm : ∀ ch ∈ lit, notTerm ch = true) (htail : ∀ ch ∈ tail, notTerm ch = true) :
    kw.isPrefixOf (jsTrim (lit ++ tail)) = true ∧
      ∀ ch ∈ jsTrim (lit ++ tail), notTerm ch = true := by
  rcases jsTrim_keyword_shape h1 h2 hne with ⟨tail', hsub, heq⟩
  rw [heq]
  constructor
  · rw [List.isPrefixOf_iff_prefix]
    exact hpre2.trans (List.prefix_append _ _)
  · intro ch hch
    rcases List.mem_append.mp hch with hml | hmt
    · exact hterm ch hml
    · exact htail ch (hsub.subset hmt)

theorem regex_literal_roundtrip {content text : List Char} (h : text <:+: content) :
    regexRuleExtract content text = text := by
  rcases Option.isSome_iff_exists.mp (firstIndexOf_isSome_of_occurs h) with ⟨i, hi⟩
  unfold regexRuleExtract
  rw [hi]
  exact take_of_firstIndexOf hi

/-! ## Claim theorems -/

/-- C1: the claim that every strategy's self-test reproduces `selectedText`
exactly (or detectably fails) is refuted by the structural and anchored
strategies: on document `"Label: value"` with selection `"Label:"`, both
extraction procedures succeed and return `"value"`, which is neither the
selection nor their empty-string failure value. -/
theorem structural_anchored_counterexample :
    cssRuleExtract "Label: value".toList "Label:".toList = "value".toList ∧
    xpathRuleExtract "Label: value".toList "Label:".toList = "value".toList ∧
    "value".toList ≠ "Label:".toList ∧ "value".toList ≠ ([] : List Char) := by decide

/-- C1 (amended): the round-trip holds for the `pattern` and `position`
strategies. Whenever the selection occurs in the document, the pattern
rule's literal search returns it exactly; and the coordinate rule applied to
the selection's own coordinates returns the (trim-stable) selection
exactly. -/
theorem pattern_position_roundtrip :
    (∀ content text : List Char, text <:+: content → regexRuleExtract content text = text) ∧
    ∀ pre text suf : List Char, jsTrim text = text →
      coordinateRuleExtract (pre ++ text ++ suf)
        ⟨pre.length, pre.length + text.length⟩ = text := by
  constructor
  · intro content text h
    exact regex_literal_roundtrip h
  · intro pre text suf htrim
    unfold coordinateRuleExtract jsSubstring
    have hlen : (pre ++ text ++ suf).length = pre.length + text.length + suf.length := by
      simp [List.length_append]
      omega
    rw [hlen]
    have h1 : min pre.length (pre.length + text.length + suf.length) = pre.length :=
      min_eq_left (by omega)
    have h2 : min (pre.length + text.length) (pre.length + text.length + suf.length) =
        pre.length + text.length := min_eq_left (by omega)
    rw [h1, h2, max_eq_right (by omega : pre.length ≤ pre.length + text.length),
      min_eq_left (by omega : pre.length ≤ pre.length + text.length)]
    have h3 : List.take (pre.length + text.length) (pre ++ text ++ suf) = pre ++ text :=
      List.take_left' (by simp)
    rw [h3, List.drop_left]
    exact htrim

theorem pattern_position_roundtrip_witness :
    regexRuleExtract "ab SEA124 cd".toList "SEA124".toList = "SEA124".toList ∧
    coordinateRuleExtract ("ab ".toList ++ "SEA124".toList ++ " cd".toList)
      ⟨"ab ".toList.length, "ab ".toList.length + "SEA124".toList.length⟩ =
      "SEA124".toList :=
  ⟨pattern_position_roundtrip.1 _ _ ⟨"ab ".toList, " cd".toList, by decide⟩,
    pattern_position_roundtrip.2 "ab ".toList "SEA124".toList " cd".toList (by decide)⟩

/-- C3: the claim that an unknown strategy fails with an
`UnknownStrategyError` is refuted: `generateRule` with strategy `"sql"`
takes the `if (generator)` miss path and returns silently — no alert is
raised and no rule is added, but no error condition is signalled either. -/
theorem unknown_strategy_counterexample :
    generateRule "sql".toList "buildingCode".toList "SEA124".toList = .noOp ∧
    GenerateOutcome.noOp ≠ .selectTextAlert ∧
    GenerateOutcome.noOp ≠ .ruleNameAlert ∧
    GenerateOutcome.noOp ≠ .ruleAdded .regex ∧
    GenerateOutcome.noOp ≠ .ruleAdded .coordinates ∧
    GenerateOutcome.noOp ≠ .ruleAdded .css ∧
    GenerateOutcome.noOp ≠ .ruleAdded .xpath := by decide

/-- C3 (amended): with a non-empty selection and non-blank name, generating
with an unknown strategy name produces no extraction procedure and
substitutes no default strategy, but it raises no error: the call is a
silent no-op. -/
theorem unknown_strategy_silent_noop :
    ∀ ruleName selectedText : List Char, selectedText ≠ [] → jsTrim ruleName ≠ [] →
      generateRule "sql".toList ruleName selectedText = .noOp := by
  intro ruleName selectedText h1 h2
  unfold generateRule
  rw [if_neg (by simpa [List.isEmpty_iff] using h1),
    if_neg (by simpa [List.isEmpty_iff] using h2)]
  rfl

theorem unknown_strategy_silent_noop_witness :
    generateRule "sql".toList "buildingCode".toList "SEA124".toList = .noOp :=
  unknown_strategy_silent_noop "buildingCode".toList "SEA124".toList (by decide) (by decide)

/-- C10: `contains` treats both bounds inclusively — it decides
`startPos ≤ p ∧ p ≤ endPos`, and in particular it accepts the exclusive end
offset `endPos` of the half-open span. -/
theorem contains_inclusive_bounds :
    (∀ (t : ParserTarget) (p : Nat), t.containsPos p = true ↔ t.startPos ≤ p ∧ p ≤ t.endPos) ∧
    ∀ t : ParserTarget, t.startPos ≤ t.endPos → t.containsPos t.endPos = true := by
  constructor
  · intro t p
    simp [ParserTarget.containsPos]
  · intro t h
    simp [ParserTarget.containsPos, h]

theorem contains_inclusive_bounds_witness :
    ParserTarget.containsPos ⟨"SEA124".toList, 24, 30, 1, .nullField, none⟩ 30 = true :=
  contains_inclusive_bounds.2 ⟨"SEA124".toList, 24, 30, 1, .nullField, none⟩ (by decide)

/-- C2: after any detection pass, no two targets in the registry overlap —
candidates overlapping an already-accepted target are discarded by the
pre-scoring check, so the accumulated registry is pairwise non-overlapping,
and the final sort only permutes it. -/
theorem detection_pass_non_overlapping (content : List Char) :
    (autoDetectParserTargets content).Pairwise fun a b => a.overlaps b = false := by
  unfold autoDetectParserTargets
  have hp := detect_foldl_pairwise content (catalogRawMatches content) [] List.Pairwise.nil
  have hperm := List.perm_insertionSort (fun a b : ParserTarget => a.startPos ≤ b.startPos)
    ((catalogRawMatches content).foldl (detectStep content) [])
  exact (hperm.pairwise_iff fun h => overlaps_symm_false h).mpr hp

/-- C4: confidence bounds — the scorer always returns a value in
`[0.5, 1.0]`, every target produced by a detection pass carries such a
value, and operator re-mapping preserves the bounds. -/
theorem confidence_bounds_invariant :
    (∀ (fieldType : FieldType) (text : List Char) (position : Nat) (content : List Char),
      5 ≤ calculateConfidence fieldType text position content ∧
        calculateConfidence fieldType text position content ≤ 10) ∧
    (∀ content : List Char, ∀ t ∈ autoDetectParserTargets content,
      5 ≤ t.confidence ∧ t.confidence ≤ 10) ∧
    (∀ (targets : List ParserTarget) (index : Nat) (nf : NewFieldType),
      (∀ t ∈ targets, 5 ≤ t.confidence ∧ t.confidence ≤ 10) →
      ∀ t ∈ updateTargetMapping targets index nf, 5 ≤ t.confidence ∧ t.confidence ≤ 10) ∧
    ∀ content : List Char, ∀ t ∈ autoDetectParserTargets content,
      (1 : ℚ)/2 ≤ (t.confidence : ℚ)/10 ∧ (t.confidence : ℚ)/10 ≤ 1 := by
  have tenths : ∀ n : Nat, 5 ≤ n → n ≤ 10 → (1 : ℚ)/2 ≤ (n : ℚ)/10 ∧ (n : ℚ)/10 ≤ 1 := by
    intro n h1 h2
    constructor
    · rw [div_le_div_iff₀ (by norm_num) (by norm_num)]
      have : (5 : ℚ) ≤ (n : ℚ) := by exact_mod_cast h1
      linarith
    · rw [div_le_one (by norm_num)]
      have : (n : ℚ) ≤ 10 := by exact_mod_cast h2
      linarith
  have hmem : ∀ content : List Char, ∀ t ∈ autoDetectParserTargets content,
      5 ≤ t.confidence ∧ t.confidence ≤ 10 := by
    intro content t ht
    have hperm := List.perm_insertionSort (fun a b : ParserTarget => a.startPos ≤ b.startPos)
      ((catalogRawMatches content).foldl (detectStep content) [])
    have ht' : t ∈ (catalogRawMatches content).foldl (detectStep content) [] :=
      hperm.mem_iff.mp ht
    exact detect_foldl_mem content
      (fun u => 5 ≤ u.confidence ∧ u.confidence ≤ 10)
      (fun ft s tt => calculateConfidence_bounds ft tt s content)
      (catalogRawMatches content) [] (by simp) t ht'
  refine ⟨calculateConfidence_bounds, hmem, ?_,
    fun content t ht => tenths _ (hmem content t ht).1 (hmem content t ht).2⟩
  · intro targets index nf h t ht
    unfold updateTargetMapping at ht
    split at ht
    · exact h t ht
    · next target hsome =>
      have htarget : target ∈ targets := List.getElem?_mem hsome
      rcases List.mem_or_eq_of_mem_set ht with h' | rfl
      · exact h t h'
      · have hb := h target htarget
        constructor
        · simp only []
          split
          · exact le_jsMin (by omega) (by omega)
          · exact hb.1
        · simp only []
          split
          · exact jsMin_le_left _ _
          · exact hb.2

/-- C9: the scorer never goes below the acceptance threshold — its result is
always at least `0.5` — and therefore the detection loop accepts every
candidate that survives the overlap check: the threshold test never
discards anything. -/
theorem scorer_never_rejects :
    (∀ (fieldType : FieldType) (text : List Char) (position : Nat) (content : List Char),
      5 ≤ calculateConfidence fieldType text position content) ∧
    ∀ (content : List Char) (acc : List ParserTarget) (m : FieldType × Nat × List Char),
      (acc.any fun t =>
        spanOverlaps t.startPos t.endPos m.2.1 (m.2.1 + (jsTrim m.2.2).length)) = false →
      detectStep content acc m = acc ++ [mkDetected content m.1 m.2.1 (jsTrim m.2.2)] := by
  refine ⟨fun ft text pos content => (calculateConfidence_bounds ft text pos content).1, ?_⟩
  intro content acc m h
  unfold detectStep
  rw [h]
  simp only [Bool.false_eq_true, if_false]
  rw [if_pos ((calculateConfidence_bounds m.1 (jsTrim m.2.2) m.2.1 content).1)]

theorem scorer_never_rejects_witness :
    detectStep [] [] (.building_code, 0, "SEA124".toList) =
      [mkDetected [] .building_code 0 (jsTrim "SEA124".toList)] :=
  scorer_never_rejects.2 [] [] (.building_code, 0, "SEA124".toList) (by decide)

/-- C8: operator re-mapping only mutates `fieldType` and `confidence`: the
re-mapped entry keeps its text, span and context; its confidence becomes
`min(1.0, confidence + 0.2)` for a real field type and is untouched for
`'unmapped'` (so it never decreases); every other registry entry is
untouched. -/
theorem remap_frame :
    ∀ (targets : List ParserTarget) (index : Nat) (nf : NewFieldType) (t : ParserTarget),
      targets[index]? = some t → t.confidence ≤ 10 →
      ∃ u, (updateTargetMapping targets index nf)[index]? = some u ∧
        u.text = t.text ∧ u.startPos = t.startPos ∧ u.endPos = t.endPos ∧
        u.context = t.context ∧ u.fieldType = nf.asAssignment ∧
        u.confidence = (match nf with
          | .unmapped => t.confidence
          | .toField _ => jsMin 10 (t.confidence + 2)) ∧
        t.confidence ≤ u.confidence ∧
        ∀ j, j ≠ index → (updateTargetMapping targets index nf)[j]? = targets[j]? := by
  intro targets index nf t ht hle
  have hlt : index < targets.length := by
    by_contra hge
    rw [List.getElem?_eq_none (by omega)] at ht
    cases ht
  unfold updateTargetMapping
  rw [ht]
  refine ⟨_, List.getElem?_set_self hlt, rfl, rfl, rfl, rfl, rfl, ?_, ?_, ?_⟩
  · cases nf <;> simp
  · cases nf with
    | unmapped => simp
    | toField ft =>
      simp only [ne_eq, reduceCtorEq, not_false_eq_true, if_pos]
      exact le_jsMin hle (by omega)
  · intro j hj
    exact List.getElem?_set_ne (fun hh => hj hh.symm)

theorem remap_frame_witness :
    ∃ u, (updateTargetMapping [⟨"SEA124".toList, 24, 30, 9, .assigned .building_code, none⟩]
        0 (.toField .device_id))[0]? = some u ∧
      u.text = "SEA124".toList ∧ u.startPos = 24 ∧ u.endPos = 30 ∧
      u.context = none ∧ u.fieldType = NewFieldType.asAssignment (.toField .device_id) ∧
      u.confidence = jsMin 10 (9 + 2) ∧ 9 ≤ u.confidence ∧
      ∀ j, j ≠ 0 →
        (updateTargetMapping [⟨"SEA124".toList, 24, 30, 9, .assigned .building_code, none⟩]
          0 (.toField .device_id))[j]? =
        ([⟨"SEA124".toList, 24, 30, 9, .assigned .building_code, none⟩] :
          List ParserTarget)[j]? :=
  remap_frame [⟨"SEA124".toList, 24, 30, 9, .assigned .building_code, none⟩] 0
    (.toField .device_id) ⟨"SEA124".toList, 24, 30, 9, .assigned .building_code, none⟩
    rfl (by decide)

/-- C5: the claim that `SEA124` is scored via the generic pattern with only
the length bonus (0.5 + 0.1 = 0.6 before context/position bonuses) is
refuted: `SEA124` matches the strict `SE`-site-code sub-pattern, so the
scorer's building-code branch yields 0.5 + 0.3 + 0.1 = 0.9 (9 in tenths),
not 0.6 (6 in tenths; evaluated here with empty context and zero position
ratio to isolate the branch). -/
theorem sea124_strict_bonus_counterexample :
    existsMatchIn matchStrictSiteAt "SEA124".toList = true ∧
    calculateConfidence .building_code "SEA124".toList 0 "SEA124".toList = 9 ∧
    (9 : Nat) ≠ 6 := by decide

/-- C5 (amended): on the scenario-1 text the detector finds `SEA124` as a
`building_code` target, located by the strict site-code pattern (the first
catalog pattern, whose single match on the text is `SEA124` at offset 24);
the scorer grants the strict +0.3 sub-pattern bonus and the +0.1 length
bonus (0.9 before context/position bonuses), and with the +0.1 position
bonus the final clamped confidence is 1.0 (10 in tenths). -/
theorem sea124_strict_detection :
    matchAll matchStrictSiteAt scenario1Text = [(24, "SEA124".toList)] ∧
    calculateConfidence .building_code "SEA124".toList 24 scenario1Text = 10 ∧
    ∃ t ∈ autoDetectParserTargets scenario1Text,
      t.text = "SEA124".toList ∧ t.fieldType = .assigned .building_code ∧
      t.startPos = 24 ∧ t.confidence = 10 := by decide

/-- C6: the claim that every `job_name` target starts with `"Service Call"`
or `"Alarm"` is refuted: the second `job_name` catalog pattern matches the
other keywords, and on input `"Device Offline at site"` the detection pass
produces a `job_name` target whose text starts with `"Device Offline"`. -/
theorem job_name_keyword_counterexample :
    ∃ t ∈ autoDetectParserTargets "Device Offline at site".toList,
      t.fieldType = .assigned .job_name ∧
      ("Service Call".toList).isPrefixOf t.text = false ∧
      ("Alarm".toList).isPrefixOf t.text = false := by decide

/-- C7: the claim's printable-character test is refuted by the source's
ratio check, which counts every character except the C0 controls (newline
and tab included) and DEL as printable — non-ASCII characters count — and
demands strictly more than 30%: a string of seven newlines and `abc` fails
the source's test but passes the spec's; a string at exactly 30% printable
fails the strict `>`; a run of `é` passes the source's test but has no
spec-printable character at all. -/
theorem printable_ratio_counterexample :
    displayableRatioOk "\n\n\n\n\n\n\nabc".toList = false ∧
    specDisplayableRatioOk "\n\n\n\n\n\n\nabc".toList = true ∧
    displayableRatioOk ("abc".toList ++ List.replicate 7 '\x00') = false ∧
    specDisplayableRatioOk ("abc".toList ++ List.replicate 7 '\x00') = true ∧
    displayableRatioOk (List.replicate 10 'é') = true ∧
    specDisplayableRatioOk (List.replicate 10 'é') = false := by decide

/-- C7 (amended): for string input the normalizer strips exactly the control
characters `0x00, 0x01–0x08, 0x0B, 0x0C, 0x0E–0x1F, 0x7F` (newline, tab and
CR untouched); for byte buffers it tries the five encodings in the fixed
order and picks the first whose decode passes the source's ratio test
(strictly more than 30% of characters outside `0x00–0x1F ∪ {0x7F}`),
stripping the winner, and falls back to the textual hex dump when all five
fail. -/
theorem normalizer_selection :
    (∀ (decode : EncodingName → List Nat → List Char) (filename s : List Char),
      convertContentToDisplayableText decode filename (.str s) =
        s.filter fun c => !isStrippedControl c) ∧
    (∀ (decode : EncodingName → List Nat → List Char) (filename : List Char) (bytes : List Nat),
      displayableRatioOk (decode .utf8 bytes) = true →
      convertContentToDisplayableText decode filename (.buffer bytes) =
        stripControls (decode .utf8 bytes)) ∧
    (∀ (decode : EncodingName → List Nat → List Char) (filename : List Char) (bytes : List Nat),
      displayableRatioOk (decode .utf8 bytes) = false →
      displayableRatioOk (decode .iso88591 bytes) = true →
      convertContentToDisplayableText decode filename (.buffer bytes) =
        stripControls (decode .iso88591 bytes)) ∧
    (∀ (decode : EncodingName → List Nat → List Char) (filename : List Char) (bytes : List Nat),
      displayableRatioOk (decode .utf8 bytes) = false →
      displayableRatioOk (decode .iso88591 bytes) = false →
      displayableRatioOk (decode .windows1252 bytes) = true →
      convertContentToDisplayableText decode filename (.buffer bytes) =
        stripControls (decode .windows1252 bytes)) ∧
    (∀ (decode : EncodingName → List Nat → List Char) (filename : List Char) (bytes : List Nat),
      (∀ e ∈ encodingOrder, displayableRatioOk (decode e bytes) = false) →
      convertContentToDisplayableText decode filename (.buffer bytes) =
        convertContentToHexText filename bytes) ∧
    (isStrippedControl '\n' = false ∧ isStrippedControl '\t' = false ∧
      isStrippedControl '\r' = false ∧ isStrippedControl '\x00' = true ∧
      isStrippedControl '\x01' = true ∧ isStrippedControl '\x0b' = true ∧
      isStrippedControl '\x7f' = true) := by
  refine ⟨fun _ _ _ => rfl, ?_, ?_, ?_, ?_, by decide⟩
  · intro d f b h
    simp [convertContentToDisplayableText, encodingOrder, List.find?, h]
  · intro d f b h1 h2
    simp [convertContentToDisplayableText, encodingOrder, List.find?, h1, h2]
  · intro d f b h1 h2 h3
    simp [convertContentToDisplayableText, encodingOrder, List.find?, h1, h2, h3]
  · intro d f b h
    have h1 := h .utf8 (by simp [encodingOrder])
    have h2 := h .iso88591 (by simp [encodingOrder])
    have h3 := h .windows1252 (by simp [encodingOrder])
    have h4 := h .utf16le (by simp [encodingOrder])
    have h5 := h .utf16be (by simp [encodingOrder])
    simp [convertContentToDisplayableText, encodingOrder, List.find?, h1, h2, h3, h4, h5]

theorem normalizer_selection_witness :
    convertContentToDisplayableText (fun _ _ => "ab".toList) [] (.buffer [97, 98]) =
      stripControls "ab".toList :=
  normalizer_selection.2.1 (fun _ _ => "ab".toList) [] [97, 98] (by decide)

theorem confidence_bounds_invariant_witness :
    5 ≤ ParserTarget.confidence
        ⟨"SEA124".toList, 24, 30, 10, .assigned .device_id, none⟩ ∧
      ParserTarget.confidence
        ⟨"SEA124".toList, 24, 30, 10, .assigned .device_id, none⟩ ≤ 10 :=
  confidence_bounds_invariant.2.2.1
    [⟨"SEA124".toList, 24, 30, 9, .assigned .building_code, none⟩] 0 (.toField .device_id)
    (by decide) ⟨"SEA124".toList, 24, 30, 10, .assigned .device_id, none⟩ (by decide)

/-- C6 (amended): every `job_name` target's text begins with one of the
keywords of the two `job_name` catalog patterns — `"Service Call"` or
`"Alarm"` (first pattern), or `"Device Offline"`, `"Line Error"`,
`"Alarm Active"` (second pattern; its texts start with `"Alarm"` as well) —
and runs to the next sentence terminator or line feed, so its text contains
no `.`, `!`, `?` or newline. -/
theorem job_name_targets_shape :
    ∀ (content : List Char) (t : ParserTarget), t ∈ autoDetectParserTargets content →
      t.fieldType = .assigned .job_name →
      (("Service Call".toList).isPrefixOf t.text = true ∨
        ("Alarm".toList).isPrefixOf t.text = true ∨
        ("Device Offline".toList).isPrefixOf t.text = true ∨
        ("Line Error".toList).isPrefixOf t.text = true) ∧
      ∀ ch ∈ t.text, notTerm ch = true := by
  intro content t ht hft
  unfold autoDetectParserTargets at ht
  have hperm := List.perm_insertionSort (fun a b : ParserTarget => a.startPos ≤ b.startPos)
    ((catalogRawMatches content).foldl (detectStep content) [])
  have ht' := hperm.mem_iff.mp ht
  rcases detect_foldl_provenance content (catalogRawMatches content) [] t ht' with
    h | ⟨mr, hmem, hf, htext⟩
  · cases h
  · obtain ⟨ft, i, mtext⟩ := mr
    dsimp only at hf htext
    rw [hft] at hf
    have hft2 : FieldType.job_name = ft := by injection hf
    rcases hft2 with rfl
    rcases catalog_job_name_cases hmem with hc | hc
    · rcases keyword_match_text_shape hc with ⟨lit, hlit, tail, rfl, htail⟩
      simp only [jobNameAlts1, List.mem_cons, List.mem_singleton,
        List.not_mem_nil, or_false] at hlit
      rcases hlit with rfl | rfl
      · have haux := job_name_shape_aux
          (show "Service Call".toList <+: "Service Call".toList from List.prefix_rfl)
          (by decide) (by decide) (by decide) (by decide) htail
        rw [htext]
        exact ⟨Or.inl haux.1, haux.2⟩
      · have haux := job_name_shape_aux
          (show "Alarm".toList <+: "Alarm".toList from List.prefix_rfl)
          (by decide) (by decide) (by decide) (by decide) htail
        rw [htext]
        exact ⟨Or.inr (Or.inl haux.1), haux.2⟩
    · rcases keyword_match_text_shape hc with ⟨lit, hlit, tail, rfl, htail⟩
      simp only [jobNameAlts2, List.mem_cons, List.mem_singleton,
        List.not_mem_nil, or_false] at hlit
      rcases hlit with rfl | rfl | rfl
      · have haux := job_name_shape_aux
          (show "Device Offline".toList <+: "Device Offline".toList from List.prefix_rfl)
          (by decide) (by decide) (by decide) (by decide) htail
        rw [htext]
        exact ⟨Or.inr (Or.inr (Or.inl haux.1)), haux.2⟩
      · have haux := job_name_shape_aux
          (show "Line Error".toList <+: "Line Error".toList from List.prefix_rfl)
          (by decide) (by decide) (by decide) (by decide) htail
        rw [htext]
        exact ⟨Or.inr (Or.inr (Or.inr haux.1)), haux.2⟩
      · have haux := job_name_shape_aux
          (show "Alarm".toList <+: "Alarm Active".toList by decide)
          (by decide) (by decide) (by decide) (by decide) htail
        rw [htext]
        exact ⟨Or.inr (Or.inl haux.1), haux.2⟩

theorem job_name_targets_shape_witness :
    (("Service Call".toList).isPrefixOf ("Device Offline at site".toList) = true ∨
      ("Alarm".toList).isPrefixOf ("Device Offline at site".toList) = true ∨
      ("Device Offline".toList).isPrefixOf ("Device Offline at site".toList) = true ∨
      ("Line Error".toList).isPrefixOf ("Device Offline at site".toList) = true) ∧
    ∀ ch ∈ "Device Offline at site".toList, notTerm ch = true :=
  job_name_targets_shape "Device Offline at site".toList
    ⟨"Device Offline at site".toList, 0, 22, 5, .assigned .job_name, some ⟨[], [], 1⟩⟩
    (by decide) (by decide)

end JobTasks
